import Mathlib

/-!
Verification of the extension-fetch proxy (crx-grabber).

Shallow embedding of the proxy logic from
`src/app/api/crx/[id]/route.ts` (archive endpoint, `stripCrxHeader`,
`isRateLimited`, filename sanitization) and the raw-container endpoint
handler (size-guarded streaming via a TransformStream limiter).

Byte buffers are modelled as `List Nat`; JavaScript exceptions thrown by
`DataView` reads are modelled as an explicit outcome constructor.
-/

set_option maxHeartbeats 1000000

/-- The size ceiling: `MAX_CRX_SIZE = 20 * 1024 * 1024` from the source. -/
def MAX_CRX_SIZE : Nat := 20 * 1024 * 1024

/-- The window length: `RATE_WINDOW_MS = 60_000` from the source. -/
def RATE_WINDOW_MS : Nat := 60000

/-- The per-window limit: `RATE_LIMIT = 5` from the source. -/
def RATE_LIMIT : Nat := 5

/-- Little-endian 32-bit encoding of a number, as written by a DataView. -/
def le32 (n : Nat) : List Nat :=
  [n % 256, n / 256 % 256, n / 65536 % 256, n / 16777216 % 256]

/-- Model of `view.getUint32(off, true)` once the offset is known in bounds:
little-endian decode of the four bytes at `off`. -/
def readU32 (buf : List Nat) (off : Nat) : Nat :=
  buf.getD off 0 + 256 * buf.getD (off + 1) 0 +
    65536 * buf.getD (off + 2) 0 + 16777216 * buf.getD (off + 3) 0

/-- The check `buf[0] === 0x43 && buf[1] === 0x72 && buf[2] === 0x32 && buf[3] === 0x34`.
In JS an out-of-range index yields `undefined`, which fails every comparison,
so a buffer shorter than 4 bytes never matches. -/
def hasCrxMagic : List Nat → Bool
  | b0 :: b1 :: b2 :: b3 :: _ => b0 == 0x43 && b1 == 0x72 && b2 == 0x32 && b3 == 0x34
  | _ => false

/-- Outcome of `stripCrxHeader`: the JS function either returns a subarray,
returns `null`, or throws (a `RangeError` escaping from `DataView.getUint32`
when the fixed header fields run past the end of the buffer). -/
inductive StripOutcome where
  | thrown : StripOutcome
  | nullResult : StripOutcome
  | zip : List Nat → StripOutcome
deriving DecidableEq

/-- The fallback loop `for (i = 0; i < Math.min(len, 1024); i++)` scanning for
`PK\x03\x04`; `fuel` is the number of iterations left, `i` the current index.
Out-of-range reads `buf[i+k]` yield `undefined` in JS and fail the comparison,
modelled by the `Option` lookups. -/
def zipScan (buf : List Nat) : Nat → Nat → Option (List Nat)
  | 0, _ => none
  | fuel + 1, i =>
    if buf[i]? == some 0x50 && buf[i+1]? == some 0x4b &&
       buf[i+2]? == some 0x03 && buf[i+3]? == some 0x04 then
      some (buf.drop i)
    else
      zipScan buf fuel (i + 1)

/-- Model of `stripCrxHeader` from `route.ts`.

`DataView.getUint32(off)` throws a `RangeError` when `off + 4 > byteLength`;
the bounds tests below make each such throw explicit (`.thrown`): reading the
version needs 8 bytes, the V3 header size needs 12, and the two V2 lengths
need 16. -/
def stripCrxHeader (buf : List Nat) : StripOutcome :=
  if hasCrxMagic buf then
    if buf.length < 8 then .thrown
    else
      let version := readU32 buf 4
      if version == 3 then
        if buf.length < 12 then .thrown
        else
          let headerSize := readU32 buf 8
          let zipOffset := 12 + headerSize
          if zipOffset < buf.length then .zip (buf.drop zipOffset) else .nullResult
      else if version == 2 then
        if buf.length < 16 then .thrown
        else
          let pkLen := readU32 buf 8
          let sigLen := readU32 buf 12
          let zipOffset := 16 + pkLen + sigLen
          if zipOffset < buf.length then .zip (buf.drop zipOffset) else .nullResult
      else .nullResult
  else
    match zipScan buf (min buf.length 1024) 0 with
    | some z => .zip z
    | none => .nullResult

/-- The magic bytes `"Cr24"`. -/
def crxMagic : List Nat := [0x43, 0x72, 0x32, 0x34]

/-- Synthetic V3 container: `"Cr24" + LE32(3) + LE32(headerLen) + header + payload`. -/
def crxV3 (headerLen : Nat) (header payload : List Nat) : List Nat :=
  crxMagic ++ le32 3 ++ le32 headerLen ++ header ++ payload

/-- Synthetic V2 container:
`"Cr24" + LE32(2) + LE32(pkLen) + LE32(sigLen) + pk + sig + payload`. -/
def crxV2 (pk sig payload : List Nat) : List Nat :=
  crxMagic ++ le32 2 ++ le32 pk.length ++ le32 sig.length ++ pk ++ sig ++ payload

/-- One entry of `rateMap`: `{ count: number; resetAt: number }`. -/
structure RateEntry where
  count : Nat
  resetAt : Nat
deriving DecidableEq

/-- The in-memory `rateMap`, keyed by caller IP. -/
def RateMap : Type := String → Option RateEntry

/-- Functional update `rateMap.set(ip, e)`. -/
def rateMapSet (m : RateMap) (ip : String) (e : RateEntry) : RateMap :=
  fun k => if k = ip then some e else m k

/-- Model of `isRateLimited` from the source, with the current time and the map passed
explicitly; returns the boolean result together with the updated map.

```
if (!entry || now > entry.resetAt) {
  rateMap.set(ip, { count: 1, resetAt: now + RATE_WINDOW_MS });
  return false;
}
entry.count++;
return entry.count > RATE_LIMIT;
``` -/
def isRateLimited (now : Nat) (ip : String) (m : RateMap) : Bool × RateMap :=
  match m ip with
  | none => (false, rateMapSet m ip ⟨1, now + RATE_WINDOW_MS⟩)
  | some e =>
    if e.resetAt < now then
      (false, rateMapSet m ip ⟨1, now + RATE_WINDOW_MS⟩)
    else
      (decide (RATE_LIMIT < e.count + 1), rateMapSet m ip ⟨e.count + 1, e.resetAt⟩)

/-- A sequence of rate-limit checks for a fixed caller key, at the given
times; returns the list of results (true = limited) and the final map. -/
def runChecks (ip : String) : List Nat → RateMap → List Bool × RateMap
  | [], m => ([], m)
  | t :: ts, m =>
    let r := isRateLimited t ip m
    let rest := runChecks ip ts r.2
    (r.1 :: rest.1, rest.2)

/-- Expected results of `n` consecutive checks in one window starting from an
absent entry: check `i` (0-indexed) is limited iff `RATE_LIMIT ≤ i`. -/
def expectedResults (n : Nat) : List Bool :=
  (List.range n).map (fun i => decide (RATE_LIMIT < i + 1))

/-- The identifier check `/^[a-z]{32}$/.test(id)` (note: no `i` flag in the
source — only lowercase letters pass). -/
def validId (id : String) : Bool :=
  id.length == 32 && id.data.all (fun c => decide ('a' ≤ c) && decide (c ≤ 'z'))

/-- Caller-key derivation:
`request.headers.get("x-forwarded-for")?.split(",")[0]?.trim() || "unknown"`. -/
def callerKey (xff : Option String) : String :=
  match xff with
  | none => "unknown"
  | some s =>
    let first := ((s.splitOn ",").headD "").trim
    if first = "" then "unknown" else first

/-- ASCII model of JS `toLowerCase()`. -/
def jsToLower (c : Char) : Char :=
  if 'A' ≤ c ∧ c ≤ 'Z' then Char.ofNat (c.toNat + 32) else c

/-- Membership in the regex class `[a-z0-9]` (the complement of
`[^a-z0-9]`). -/
def isSafeChar (c : Char) : Bool :=
  decide ('a' ≤ c ∧ c ≤ 'z') || decide ('0' ≤ c ∧ c ≤ '9')

/-- The substitution step of the sanitizer: each maximal run of characters outside
`[a-z0-9]` becomes a single hyphen.  `inRun` records whether the previous
character was part of such a run. -/
def collapseAux : Bool → List Char → List Char
  | _, [] => []
  | inRun, c :: rest =>
    if isSafeChar c then c :: collapseAux false rest
    else if inRun then collapseAux true rest
    else '-' :: collapseAux true rest

/-- The `^-` half of `.replace(/^-|-$/g, "")`: remove one leading hyphen. -/
def dropOneLead (l : List Char) : List Char :=
  if l.head? = some '-' then l.tail else l

/-- The `-$` half of `.replace(/^-|-$/g, "")`: remove one trailing hyphen. -/
def dropLastHyphen (l : List Char) : List Char :=
  if l.getLast? = some '-' then l.dropLast else l

/-- The whole `safeName` pipeline from the source:
`rawName.toLowerCase().replace(/[^a-z0-9]+/g, "-").replace(/^-|-$/g, "")`. -/
def sanitizeName (l : List Char) : List Char :=
  dropLastHyphen (dropOneLead (collapseAux false (l.map jsToLower)))

/-- Source variable `safeName`, on strings. -/
def safeName (s : String) : String := String.mk (sanitizeName s.data)

/-- The filename ternary from the source: a nonempty sanitized name is used
as a hyphenated name prefix; the empty string is falsy in JS, so an empty
sanitized name means no prefix. -/
def buildFilename (nameParam : Option String) (id : String) : String :=
  let rawName := nameParam.getD ""
  if safeName rawName = "" then id ++ ".zip" else safeName rawName ++ "-" ++ id ++ ".zip"

/-- Observable outcome of the upstream fetch for the archive endpoint, which
buffers the whole body: either the fetch/read threw (network failure or the
9-second timeout), or a response arrived with `ok`, `status`, a declared
`Content-Length` header, and the fully-buffered body bytes. -/
inductive UpstreamA where
  | failure (timeout : Bool)
  | response (ok : Bool) (status : Nat) (contentLength : Option Nat) (body : List Nat)

/-- Archive-endpoint responses: an error JSON with a status, or a ZIP payload
with its content-disposition filename. -/
inductive ApiResponse where
  | json (status : Nat)
  | zip (bytes : List Nat) (filename : String)
deriving DecidableEq

/-- Response computation of the archive endpoint after rate limiting, from
`route.ts`.  Note that the declared `Content-Length` is never consulted: the
only size check compares the buffered body against `MAX_CRX_SIZE`.  A thrown
`RangeError` from `stripCrxHeader` is caught by the handler's `try`/`catch`
and surfaces as a 502, like the explicit `null` parse failure. -/
def archiveResponse (id : String) (nameParam : Option String) (limited : Bool)
    (up : UpstreamA) : ApiResponse :=
  if limited then .json 429
  else match up with
    | .failure _ => .json 502
    | .response ok status _contentLength body =>
      if !ok then .json status
      else if MAX_CRX_SIZE < body.length then .json 413
      else match stripCrxHeader body with
        | .zip z => .zip z (buildFilename nameParam id)
        | _ => .json 502

/-- Handler `GET` of `src/app/api/crx/[id]/route.ts`: validate, rate limit, then the
response computation; the rate map is the only state touched. -/
def GET_archive (id : String) (xff nameParam : Option String) (now : Nat)
    (up : UpstreamA) (m : RateMap) : ApiResponse × RateMap :=
  if validId id then
    (archiveResponse id nameParam (isRateLimited now (callerKey xff) m).1 up,
     (isRateLimited now (callerKey xff) m).2)
  else (.json 400, m)

/-- Total byte count of a chunk sequence. -/
def chunkTotal (chunks : List (List Nat)) : Nat := (chunks.map List.length).sum

/-- The limiter `TransformStream` of the raw endpoint: accumulates
`bytesRead`, errors the stream as soon as the running total exceeds
`MAX_CRX_SIZE` (without enqueueing the offending chunk), otherwise forwards
the chunk.  Returns the chunks delivered downstream and whether the stream
errored. -/
def limiterRun : Nat → List (List Nat) → List (List Nat) × Bool
  | _, [] => ([], false)
  | bytesRead, chunk :: rest =>
    if MAX_CRX_SIZE < bytesRead + chunk.length then ([], true)
    else
      let r := limiterRun (bytesRead + chunk.length) rest
      (chunk :: r.1, r.2)

/-- Observable outcome of the upstream fetch for the raw endpoint: a thrown
fetch, or a response with `ok`, `status`, a parsed `Content-Length`, and an
optional body stream given as its chunk sequence. -/
inductive UpstreamR where
  | failure (timeout : Bool)
  | response (ok : Bool) (status : Nat) (contentLength : Option Nat)
      (body : Option (List (List Nat)))

/-- Raw-endpoint responses: an error JSON, or a streamed body described by
the chunks actually delivered, whether the stream errored, and the echoed
`Content-Length` header. -/
inductive RawResponse where
  | json (status : Nat)
  | stream (delivered : List (List Nat)) (errored : Bool) (contentLength : Option Nat)
deriving DecidableEq

/-- Response computation of the raw endpoint after rate limiting: checks the
declared `Content-Length` before touching the body, then pipes the body
through the limiter. -/
def rawResponse (limited : Bool) (up : UpstreamR) : RawResponse :=
  if limited then .json 429
  else match up with
    | .failure _ => .json 502
    | .response ok status cl body =>
      if !ok then .json status
      else
        if MAX_CRX_SIZE < cl.getD 0 then .json 413
        else match body with
          | none => .json 502
          | some chunks =>
            .stream (limiterRun 0 chunks).1 (limiterRun 0 chunks).2
              (if 0 < cl.getD 0 then some (cl.getD 0) else none)

/-- Handler `GET` of the raw-container endpoint. -/
def GET_raw (id : String) (xff : Option String) (now : Nat)
    (up : UpstreamR) (m : RateMap) : RawResponse × RateMap :=
  if validId id then
    (rawResponse (isRateLimited now (callerKey xff) m).1 up,
     (isRateLimited now (callerKey xff) m).2)
  else (.json 400, m)

/-- A valid identifier: 32 lowercase letters. -/
def idA : String := "aaaaaaaaaaaaaaaaaaaaaaaaaaaaaaaa"

/-- A 32-letter identifier in upper case. -/
def idUpper : String := "AAAAAAAAAAAAAAAAAAAAAAAAAAAAAAAA"

/-- Adjacent-character invariant of the collapsed string: no two consecutive
hyphens. -/
def okPair (a b : Char) : Prop := ¬(a = '-' ∧ b = '-')

/-- Spec-side trailing trim: remove all trailing hyphens. -/
def dropTrailingAll (l : List Char) : List Char :=
  (l.reverse.dropWhile (fun c => c == '-')).reverse

/-- Sanitization as the specification words it: lowercase, collapse every
run of non-alphanumerics to one hyphen, then remove the leading and trailing
hyphens. -/
def sanitizeSpec (l : List Char) : List Char :=
  dropTrailingAll ((collapseAux false (l.map jsToLower)).dropWhile (fun c => c == '-'))

example : stripCrxHeader (crxV3 0 [] [9, 9]) = .zip [9, 9] := by decide

example : stripCrxHeader (crxV3 0 [] []) = .nullResult := by decide

example : stripCrxHeader (crxV2 [1] [2, 2] [7]) = .zip [7] := by decide

example : stripCrxHeader [0x43, 0x72, 0x32, 0x34] = .thrown := by decide

example : stripCrxHeader [0, 1, 0x50, 0x4b, 3, 4, 8] = .zip [0x50, 0x4b, 3, 4, 8] := by decide

example : stripCrxHeader [1, 2, 3] = .nullResult := by decide

lemma getD_append_len (pre rest : List Nat) (i : Nat) :
    (pre ++ rest).getD (pre.length + i) 0 = rest.getD i 0 := by
  induction pre with
  | nil => simp
  | cons c t ih =>
    have : t.length + 1 + i = (t.length + i) + 1 := by omega
    simp only [List.cons_append, List.length_cons, this, List.getD_cons_succ]
    exact ih

lemma drop_append_len (pre suf : List Nat) : (pre ++ suf).drop pre.length = suf := by
  induction pre with
  | nil => simp
  | cons c t ih => simp

lemma readU32_at (pre : List Nat) (n : Nat) (suf : List Nat) (hn : n < 4294967296) :
    readU32 (pre ++ (le32 n ++ suf)) pre.length = n := by
  have e0 := getD_append_len pre (le32 n ++ suf) 0
  have e1 := getD_append_len pre (le32 n ++ suf) 1
  have e2 := getD_append_len pre (le32 n ++ suf) 2
  have e3 := getD_append_len pre (le32 n ++ suf) 3
  have h0 : (le32 n ++ suf).getD 0 0 = n % 256 := rfl
  have h1 : (le32 n ++ suf).getD 1 0 = n / 256 % 256 := rfl
  have h2 : (le32 n ++ suf).getD 2 0 = n / 65536 % 256 := rfl
  have h3 : (le32 n ++ suf).getD 3 0 = n / 16777216 % 256 := rfl
  simp only [Nat.add_zero] at e0
  unfold readU32
  rw [e0, e1, e2, e3, h0, h1, h2, h3]
  omega

lemma crxV3_length (hl : Nat) (header payload : List Nat) (hh : header.length = hl) :
    (crxV3 hl header payload).length = 12 + hl + payload.length := by
  simp [crxV3, crxMagic, le32, List.length_append, hh]
  omega

lemma crxV2_length (pk sig payload : List Nat) :
    (crxV2 pk sig payload).length = 16 + pk.length + sig.length + payload.length := by
  simp [crxV2, crxMagic, le32, List.length_append]
  omega

/-- Parsing a synthetic V3 container: succeeds exactly when the payload is
nonempty (the source requires `zipOffset < buf.byteLength` strictly). -/
lemma strip_v3 (hl : Nat) (header payload : List Nat)
    (hh : header.length = hl) (hlt : hl < 4294967296) :
    stripCrxHeader (crxV3 hl header payload) =
      if 0 < payload.length then .zip payload else .nullResult := by
  have hmag : hasCrxMagic (crxV3 hl header payload) = true := by
    simp [crxV3, crxMagic, le32, hasCrxMagic]
  have hlen := crxV3_length hl header payload hh
  have hv : readU32 (crxV3 hl header payload) 4 = 3 := by
    have := readU32_at crxMagic 3 (le32 hl ++ (header ++ payload)) (by norm_num)
    simpa [crxV3, List.append_assoc] using this
  have hhs : readU32 (crxV3 hl header payload) 8 = hl := by
    have := readU32_at (crxMagic ++ le32 3) hl (header ++ payload) hlt
    simpa [crxV3, List.append_assoc] using this
  have hdrop : (crxV3 hl header payload).drop (12 + hl) = payload := by
    have hpre : (((crxMagic ++ le32 3) ++ le32 hl) ++ header).length = 12 + hl := by
      simp [crxMagic, le32, List.length_append, hh]; omega
    have := drop_append_len (((crxMagic ++ le32 3) ++ le32 hl) ++ header) payload
    rw [hpre] at this
    simpa [crxV3, List.append_assoc] using this
  unfold stripCrxHeader
  rw [hmag]
  simp only [if_true, hv, hhs, hlen]
  have h8 : ¬ (12 + hl + payload.length < 8) := by omega
  have h12 : ¬ (12 + hl + payload.length < 12) := by omega
  rw [if_neg h8]
  simp only [beq_self_eq_true, if_true, if_neg h12]
  by_cases hp : 0 < payload.length
  · rw [if_pos (by omega), if_pos hp, hdrop]
  · rw [if_neg (by omega), if_neg hp]

/-- Parsing a synthetic V2 container: succeeds exactly when the payload is
nonempty. -/
lemma strip_v2 (pk sig payload : List Nat)
    (hpk : pk.length < 4294967296) (hsig : sig.length < 4294967296) :
    stripCrxHeader (crxV2 pk sig payload) =
      if 0 < payload.length then .zip payload else .nullResult := by
  have hmag : hasCrxMagic (crxV2 pk sig payload) = true := by
    simp [crxV2, crxMagic, le32, hasCrxMagic]
  have hlen := crxV2_length pk sig payload
  have hv : readU32 (crxV2 pk sig payload) 4 = 2 := by
    have := readU32_at crxMagic 2
      (le32 pk.length ++ (le32 sig.length ++ (pk ++ (sig ++ payload)))) (by norm_num)
    simpa [crxV2, List.append_assoc] using this
  have hpkl : readU32 (crxV2 pk sig payload) 8 = pk.length := by
    have := readU32_at (crxMagic ++ le32 2) pk.length
      (le32 sig.length ++ (pk ++ (sig ++ payload))) hpk
    simpa [crxV2, List.append_assoc] using this
  have hsgl : readU32 (crxV2 pk sig payload) 12 = sig.length := by
    have := readU32_at ((crxMagic ++ le32 2) ++ le32 pk.length) sig.length
      (pk ++ (sig ++ payload)) hsig
    have hpre : ((crxMagic ++ le32 2) ++ le32 pk.length).length = 12 := by
      simp [crxMagic, le32, List.length_append]
    rw [hpre] at this
    simpa [crxV2, List.append_assoc] using this
  have hdrop : (crxV2 pk sig payload).drop (16 + pk.length + sig.length) = payload := by
    have hpre : (((((crxMagic ++ le32 2) ++ le32 pk.length) ++ le32 sig.length) ++ pk) ++ sig).length
        = 16 + pk.length + sig.length := by
      simp [crxMagic, le32, List.length_append]; omega
    have := drop_append_len (((((crxMagic ++ le32 2) ++ le32 pk.length) ++ le32 sig.length) ++ pk) ++ sig) payload
    rw [hpre] at this
    simpa [crxV2, List.append_assoc] using this
  unfold stripCrxHeader
  rw [hmag]
  simp only [if_true, hv, hpkl, hsgl, hlen]
  have h8 : ¬ (16 + pk.length + sig.length + payload.length < 8) := by omega
  have h16 : ¬ (16 + pk.length + sig.length + payload.length < 16) := by omega
  rw [if_neg h8]
  have hv23 : (2 == 3) = false := by decide
  simp only [hv23, if_false, beq_self_eq_true, if_true, if_neg h16]
  by_cases hp : 0 < payload.length
  · have hc : 16 + pk.length + sig.length < 16 + pk.length + sig.length + payload.length := by
      omega
    rw [if_pos hc, if_pos hp, hdrop]
    simp
  · have hc : ¬ (16 + pk.length + sig.length < 16 + pk.length + sig.length + payload.length) := by
      omega
    rw [if_neg hc, if_neg hp]
    simp

/-- C1 (amended): for every headerLen in {0, 16, 4096}, every header of that
length and every *nonempty* payload, parsing the synthetic V3 buffer
`"Cr24" + LE32(3) + LE32(headerLen) + header + payload` returns exactly
`payload`; likewise every synthetic V2 buffer
`"Cr24" + LE32(2) + LE32(pkLen) + LE32(sigLen) + pk + sig + payload` with a
nonempty payload parses to exactly `payload` (zero-length `pk`/`sig`
included).  The nonemptiness proviso is forced by the source's strict bound
`zipOffset < buf.byteLength`: an empty payload makes parsing return `null`. -/
theorem c1_roundtrip :
    (∀ (headerLen : Nat) (header payload : List Nat),
      (headerLen = 0 ∨ headerLen = 16 ∨ headerLen = 4096) →
      header.length = headerLen → payload ≠ [] →
      stripCrxHeader (crxV3 headerLen header payload) = .zip payload)
    ∧ (∀ pk sig payload : List Nat,
      pk.length < 4294967296 → sig.length < 4294967296 → payload ≠ [] →
      stripCrxHeader (crxV2 pk sig payload) = .zip payload) := by
  constructor
  · intro headerLen header payload hset hh hp
    have hlt : headerLen < 4294967296 := by rcases hset with h | h | h <;> omega
    rw [strip_v3 headerLen header payload hh hlt,
      if_pos (by cases payload <;> simp_all)]
  · intro pk sig payload hpk hsig hp
    rw [strip_v2 pk sig payload hpk hsig, if_pos (by cases payload <;> simp_all)]

/-- Witness for `c1_roundtrip` at concrete inputs: headerLen 0 with payload
`[1]`, and a V2 buffer with empty key and signature and payload `[2]`. -/
theorem c1_roundtrip_witness :
    stripCrxHeader (crxV3 0 [] [1]) = .zip [1]
    ∧ stripCrxHeader (crxV2 [] [] [2]) = .zip [2] :=
  ⟨c1_roundtrip.1 0 [] [1] (Or.inl rfl) rfl (by decide),
   c1_roundtrip.2 [] [] [2] (by decide) (by decide) (by decide)⟩

/-- Counterexample to C1 as stated: with headerLen 0 and the *empty* payload,
the parser does not return the payload (the empty list) — it returns `null`,
because the source requires `zipOffset < buf.byteLength` strictly. -/
theorem c1_counterexample :
    stripCrxHeader (crxV3 0 [] []) = .nullResult
    ∧ stripCrxHeader (crxV3 0 [] []) ≠ .zip [] := by
  constructor <;> decide

/-- C7: the claim says the parser is total on arbitrary buffers — including
magic-prefixed buffers shorter than the fixed header fields — and never
performs an out-of-bounds read.  The code is not: on the 4-byte buffer
holding just the magic `"Cr24"`, `view.getUint32(4, true)` reads past the end
of the `DataView` and throws a `RangeError` instead of returning a
parse-failure value.  (The route handler only recovers because the call sits
inside its `try`/`catch`.)  This theorem evaluates the model at that failing
input. -/
theorem c7_short_magic_throws :
    stripCrxHeader [0x43, 0x72, 0x32, 0x34] = .thrown
    ∧ stripCrxHeader [0x43, 0x72, 0x32, 0x34, 3, 0, 0, 0] = .thrown
    ∧ stripCrxHeader [0x43, 0x72, 0x32, 0x34, 2, 0, 0, 0, 0, 0, 0, 0] = .thrown := by
  refine ⟨by decide, by decide, by decide⟩

lemma rateMapSet_same (m : RateMap) (ip : String) (e : RateEntry) :
    rateMapSet m ip e ip = some e := by
  simp [rateMapSet]

lemma rateMapSet_other (m : RateMap) (ip k : String) (e : RateEntry) (h : k ≠ ip) :
    rateMapSet m ip e k = m k := by
  simp [rateMapSet, h]

/-- Checks within the current window (each time at most the stored reset
time) increment the counter one by one; check `i` of the run is limited iff
the incremented count `c + i + 1` exceeds the limit. -/
lemma runChecks_within (ip : String) (ts : List Nat) :
    ∀ (c r : Nat) (m : RateMap), m ip = some ⟨c, r⟩ → (∀ t ∈ ts, t ≤ r) →
    (runChecks ip ts m).1 = (List.range ts.length).map (fun i => decide (RATE_LIMIT < c + i + 1))
    ∧ (runChecks ip ts m).2 ip = some ⟨c + ts.length, r⟩ := by
  induction ts with
  | nil => intro c r m hm _; simpa [runChecks] using hm
  | cons t ts ih =>
    intro c r m hm hts
    have ht : t ≤ r := hts t (by simp)
    have hstep : isRateLimited t ip m =
        (decide (RATE_LIMIT < c + 1), rateMapSet m ip ⟨c + 1, r⟩) := by
      simp [isRateLimited, hm, Nat.not_lt.mpr ht]
    have hm' : rateMapSet m ip ⟨c + 1, r⟩ ip = some ⟨c + 1, r⟩ := rateMapSet_same m ip _
    have hts' : ∀ u ∈ ts, u ≤ r := fun u hu => hts u (by simp [hu])
    obtain ⟨ih1, ih2⟩ := ih (c + 1) r (rateMapSet m ip ⟨c + 1, r⟩) hm' hts'
    constructor
    · simp only [runChecks, hstep, ih1, List.length_cons, List.range_succ_eq_map,
        List.map_cons, List.map_map]
      congr 1
      apply List.map_congr_left
      intro i _
      simp only [Function.comp_apply, Nat.succ_eq_add_one]
      exact decide_eq_decide.mpr (by omega)
    · simp only [runChecks, hstep, ih2, List.length_cons]
      congr 2
      omega

lemma expected_shift (c n : Nat) :
    (List.range (n + 1)).map (fun i => decide (RATE_LIMIT < c + i + 1)) =
      decide (RATE_LIMIT < c + 1) ::
        (List.range n).map (fun i => decide (RATE_LIMIT < c + 1 + i + 1)) := by
  rw [List.range_succ_eq_map, List.map_cons, List.map_map]
  congr 1
  apply List.map_congr_left
  intro i _
  simp only [Function.comp_apply, Nat.succ_eq_add_one]
  exact decide_eq_decide.mpr (by omega)

lemma expectedResults_eq (n : Nat) :
    expectedResults n = (List.range n).map (fun i => decide (RATE_LIMIT < 0 + i + 1)) := by
  unfold expectedResults
  apply List.map_congr_left
  intro i _
  exact decide_eq_decide.mpr (by omega)

/-- C6: starting from no entry for the caller key, a run of checks whose
times all lie inside the window opened by the first check produces: first
five allowed, sixth and all later ones denied (`expectedResults`); moreover,
any check made strictly after a stored reset time reinitializes the entry to
count 1 with reset time one window ahead and is allowed. -/
theorem c6_fixed_window (ip : String) (m : RateMap) (t0 : Nat) (ts : List Nat)
    (hm : m ip = none) (hts : ∀ t ∈ ts, t ≤ t0 + RATE_WINDOW_MS)
    (m2 : RateMap) (c r t : Nat) (hm2 : m2 ip = some ⟨c, r⟩) (ht : r < t) :
    (runChecks ip (t0 :: ts) m).1 = expectedResults (ts.length + 1)
    ∧ isRateLimited t ip m2 = (false, rateMapSet m2 ip ⟨1, t + RATE_WINDOW_MS⟩) := by
  constructor
  · have h1 : isRateLimited t0 ip m = (false, rateMapSet m ip ⟨1, t0 + RATE_WINDOW_MS⟩) := by
      simp [isRateLimited, hm]
    have hm1 : rateMapSet m ip ⟨1, t0 + RATE_WINDOW_MS⟩ ip
        = some ⟨1, t0 + RATE_WINDOW_MS⟩ := rateMapSet_same m ip _
    obtain ⟨hw1, _⟩ := runChecks_within ip ts 1 (t0 + RATE_WINDOW_MS)
      (rateMapSet m ip ⟨1, t0 + RATE_WINDOW_MS⟩) hm1 hts
    have hcons : (runChecks ip (t0 :: ts) m).1 =
        false :: (runChecks ip ts (rateMapSet m ip ⟨1, t0 + RATE_WINDOW_MS⟩)).1 := by
      simp [runChecks, h1]
    rw [hcons, hw1, expectedResults_eq, expected_shift 0 ts.length]
    congr 1
  · simp [isRateLimited, hm2, ht]

/-- Witness for `c6_fixed_window`: seven checks inside one window from a cold
map give allowed, allowed, allowed, allowed, allowed, denied, denied. -/
theorem c6_fixed_window_witness :
    (runChecks "k" (0 :: [1, 2, 3, 4, 5, 6]) (fun _ => none)).1 = expectedResults 7 :=
  (c6_fixed_window "k" (fun _ => none) 0 [1, 2, 3, 4, 5, 6] rfl (by decide)
    (fun _ => some ⟨7, 5⟩) 7 5 6 rfl (by decide)).1

/-- C9: within a window (all check times at most the stored reset time) the
entry count only ever increments, and once a check has been denied, every
later check for that key before the reset time passes is denied too. -/
theorem c9_denied_persists (ip : String) (m0 : RateMap) (c0 r t0 : Nat)
    (hm : m0 ip = some ⟨c0, r⟩) (ht0 : t0 ≤ r)
    (hden : (isRateLimited t0 ip m0).1 = true)
    (ts : List Nat) (hts : ∀ t ∈ ts, t ≤ r) :
    (isRateLimited t0 ip m0).2 ip = some ⟨c0 + 1, r⟩
    ∧ (runChecks ip ts (isRateLimited t0 ip m0).2).2 ip = some ⟨c0 + 1 + ts.length, r⟩
    ∧ ∀ b ∈ (runChecks ip ts (isRateLimited t0 ip m0).2).1, b = true := by
  have hstep : isRateLimited t0 ip m0 =
      (decide (RATE_LIMIT < c0 + 1), rateMapSet m0 ip ⟨c0 + 1, r⟩) := by
    simp [isRateLimited, hm, Nat.not_lt.mpr ht0]
  have hcount : RATE_LIMIT < c0 + 1 := by
    rw [hstep] at hden
    simpa using hden
  have hm1 : rateMapSet m0 ip ⟨c0 + 1, r⟩ ip = some ⟨c0 + 1, r⟩ := rateMapSet_same m0 ip _
  obtain ⟨h1, h2⟩ := runChecks_within ip ts (c0 + 1) r (rateMapSet m0 ip ⟨c0 + 1, r⟩) hm1 hts
  refine ⟨by rw [hstep]; exact hm1, by rw [hstep]; exact h2, ?_⟩
  intro b hb
  rw [hstep] at hb
  rw [h1] at hb
  simp only [List.mem_map, List.mem_range] at hb
  obtain ⟨i, _, hbi⟩ := hb
  rw [← hbi]
  exact decide_eq_true (by omega)

/-- Witness for `c9_denied_persists`: a key already at count 5 is denied at
time 50, and the following two checks inside the window stay denied. -/
theorem c9_denied_persists_witness :
    (isRateLimited 50 "k" (fun _ => some ⟨5, 100⟩)).2 "k" = some ⟨6, 100⟩ :=
  (c9_denied_persists "k" (fun _ => some ⟨5, 100⟩) 5 100 50 rfl (by decide)
    (by decide) [60, 70] (by decide)).1

example : validId "aaaaaaaaaaaaaaaaaaaaaaaaaaaaaaaa" = true := by decide

example : validId "AAAAAAAAAAAAAAAAAAAAAAAAAAAAAAAA" = false := by decide

example : validId "aaaaaaaaaaaaaaaaaaaaaaaaaaaaaaa" = false := by decide

example : safeName "My Cool!! Extension--Name" = "my-cool-extension-name" := by decide

example : safeName "   " = "" := by decide

example : idA.length = 32 ∧ idUpper.length = 32 := by decide

/-- C2 (amended): validation is case-sensitive, not case-insensitive — the
endpoint accepts exactly the strings of 32 *lowercase* ASCII letters (used
as-is; no normalization happens or is needed), and rejects every other
string, including 32-letter strings containing an uppercase letter, with the
invalid-identifier outcome (HTTP 400) before any rate-limit or network work
(the rate map is untouched and the result is independent of the upstream
outcome). -/
theorem c2_validation (id : String) (xff nameParam : Option String) (now : Nat)
    (up : UpstreamA) (m : RateMap) :
    (validId id = false → GET_archive id xff nameParam now up m = (.json 400, m))
    ∧ (validId id = true →
        (GET_archive id xff nameParam now up m).2 = (isRateLimited now (callerKey xff) m).2)
    ∧ (validId id = true ↔ id.length = 32 ∧ ∀ c ∈ id.data, 'a' ≤ c ∧ c ≤ 'z') := by
  refine ⟨fun h => by simp [GET_archive, h], fun h => by simp [GET_archive, h], ?_⟩
  simp [validId, List.all_eq_true]

/-- Witness for `c2_validation`: the invalid identifier `"AB"` is rejected
with 400 and the rate map is left unchanged. -/
theorem c2_validation_witness :
    GET_archive "AB" none none 0 (UpstreamA.failure false) (fun _ => none)
      = (ApiResponse.json 400, fun _ => none) :=
  (c2_validation "AB" none none 0 (UpstreamA.failure false) (fun _ => none)).1 (by decide)

/-- Counterexample to C2 as stated: a string of exactly 32 ASCII letters in
upper case is *not* accepted — the endpoint rejects it with 400, because the
source regex `/^[a-z]{32}$/` has no `i` flag. -/
theorem c2_counterexample :
    validId idUpper = false
    ∧ (GET_archive idUpper none none 0 (UpstreamA.failure false) (fun _ => none)).1
        = ApiResponse.json 400 := by
  constructor <;> decide

/-- C3 (amended): only the raw-container endpoint fails with 413 on a
declared `Content-Length` exceeding the ceiling, without reading the body
(the body argument is universally quantified); the archive endpoint ignores
the declared `Content-Length` entirely and instead returns 413 after
buffering, when the *actual* body size exceeds the ceiling. -/
theorem c3_size_ceiling (id : String) (xff nameParam : Option String) (now : Nat)
    (status cl : Nat) (bodyR : Option (List (List Nat)))
    (clA : Option Nat) (bodyA : List Nat) (m : RateMap)
    (hid : validId id = true)
    (hnl : (isRateLimited now (callerKey xff) m).1 = false)
    (hcl : MAX_CRX_SIZE < cl)
    (hbody : MAX_CRX_SIZE < bodyA.length) :
    (GET_raw id xff now (.response true status (some cl) bodyR) m).1 = .json 413
    ∧ (GET_archive id xff nameParam now (.response true status clA bodyA) m).1 = .json 413 := by
  constructor
  · simp [GET_raw, hid, rawResponse, hnl, hcl]
  · simp [GET_archive, hid, archiveResponse, hnl, hbody]

/-- Witness for `c3_size_ceiling`: a 20MiB+1 buffered body yields 413 on the
archive endpoint. -/
theorem c3_size_ceiling_witness :
    (GET_archive idA none none 0
        (.response true 200 none (List.replicate (MAX_CRX_SIZE + 1) 0)) (fun _ => none)).1
      = ApiResponse.json 413 :=
  (c3_size_ceiling idA none none 0 200 (MAX_CRX_SIZE + 1) none none
      (List.replicate (MAX_CRX_SIZE + 1) 0) (fun _ => none)
      (by decide) rfl (by omega) (by rw [List.length_replicate]; omega)).2

/-- Counterexample to C3 as stated: the archive endpoint, given an upstream
response whose declared `Content-Length` exceeds 20 MiB but whose actual body
is a small valid container, does *not* return 413 — it reads the body and
serves the stripped archive, because `route.ts` never consults the
`Content-Length` header. -/
theorem c3_counterexample :
    (GET_archive idA none none 0
        (.response true 200 (some (MAX_CRX_SIZE + 1)) (crxV3 0 [] [1])) (fun _ => none)).1
      = ApiResponse.zip [1] (idA ++ ".zip")
    ∧ (GET_archive idA none none 0
        (.response true 200 (some (MAX_CRX_SIZE + 1)) (crxV3 0 [] [1])) (fun _ => none)).1
      ≠ ApiResponse.json 413 := by
  constructor <;> decide

/-- C4 (amended): when the upstream fetch completes with a non-success
status, each endpoint returns that upstream status itself to the caller
(`status: response.status` in both handlers), not a fixed 502. -/
theorem c4_upstream_status (id : String) (xff nameParam : Option String) (now status : Nat)
    (clA : Option Nat) (bodyA : List Nat) (clR : Option Nat) (bodyR : Option (List (List Nat)))
    (m : RateMap)
    (hid : validId id = true)
    (hnl : (isRateLimited now (callerKey xff) m).1 = false) :
    (GET_archive id xff nameParam now (.response false status clA bodyA) m).1 = .json status
    ∧ (GET_raw id xff now (.response false status clR bodyR) m).1 = .json status := by
  constructor
  · simp [GET_archive, hid, archiveResponse, hnl]
  · simp [GET_raw, hid, rawResponse, hnl]

/-- Witness for `c4_upstream_status`: an upstream 503 is forwarded as 503 by
the raw endpoint. -/
theorem c4_upstream_status_witness :
    (GET_raw idA none 0 (.response false 503 none none) (fun _ => none)).1
      = RawResponse.json 503 :=
  (c4_upstream_status idA none none 0 503 none [] none none (fun _ => none) (by decide) rfl).2

/-- Counterexample to C4 as stated: an upstream 404 produces a caller-facing
404, not 502. -/
theorem c4_counterexample :
    (GET_archive idA none none 0 (.response false 404 none []) (fun _ => none)).1
      = ApiResponse.json 404
    ∧ (GET_archive idA none none 0 (.response false 404 none []) (fun _ => none)).1
      ≠ ApiResponse.json 502 := by
  constructor <;> decide

lemma isRateLimited_other (now : Nat) (ip k : String) (m : RateMap) (h : k ≠ ip) :
    (isRateLimited now ip m).2 k = m k := by
  unfold isRateLimited
  cases hm : m ip with
  | none => simp [rateMapSet_other _ _ _ _ h]
  | some e =>
    by_cases hr : e.resetAt < now <;> simp [hr, rateMapSet_other _ _ _ _ h]

/-- C10: for every request passing validation, the final rate map equals the
map right after the single `isRateLimited` call — for *every* upstream
outcome, so later failures never roll the update back and the update happens
before (independently of) the fetch; no other key of the map (the only
shared state in the model) changes; and the caller key's entry is created at
count 1, or incremented, or reinitialized when its reset time has passed. -/
theorem c10_frame (id : String) (xff nameParam : Option String) (now : Nat)
    (up : UpstreamA) (m : RateMap) (hid : validId id = true) :
    (GET_archive id xff nameParam now up m).2 = (isRateLimited now (callerKey xff) m).2
    ∧ (∀ k, k ≠ callerKey xff → (GET_archive id xff nameParam now up m).2 k = m k)
    ∧ (m (callerKey xff) = none →
        (GET_archive id xff nameParam now up m).2 (callerKey xff)
          = some ⟨1, now + RATE_WINDOW_MS⟩)
    ∧ (∀ c r, m (callerKey xff) = some ⟨c, r⟩ →
        (GET_archive id xff nameParam now up m).2 (callerKey xff)
          = some (if r < now then ⟨1, now + RATE_WINDOW_MS⟩ else ⟨c + 1, r⟩)) := by
  have hG : (GET_archive id xff nameParam now up m).2
      = (isRateLimited now (callerKey xff) m).2 := by
    simp [GET_archive, hid]
  refine ⟨hG, ?_, ?_, ?_⟩
  · intro k hk
    rw [hG]
    exact isRateLimited_other now _ k m hk
  · intro hnone
    rw [hG]
    simp [isRateLimited, hnone, rateMapSet_same]
  · intro c r hsome
    rw [hG]
    by_cases hr : r < now
    · simp [isRateLimited, hsome, hr, rateMapSet_same]
    · simp [isRateLimited, hsome, hr, rateMapSet_same]

/-- Witness for `c10_frame`: a request whose upstream fetch throws still
consumes one unit of quota — the entry is created with count 1. -/
theorem c10_frame_witness :
    (GET_archive idA none none 0 (UpstreamA.failure false) (fun _ => none)).2 "unknown"
      = some ⟨1, RATE_WINDOW_MS⟩ :=
  (c10_frame idA none none 0 (UpstreamA.failure false) (fun _ => none) (by decide)).2.2.1 rfl

lemma limiterRun_spec (chunks : List (List Nat)) :
    ∀ n, n ≤ MAX_CRX_SIZE →
    (∃ rest, chunks = (limiterRun n chunks).1 ++ rest)
    ∧ n + chunkTotal (limiterRun n chunks).1 ≤ MAX_CRX_SIZE
    ∧ ((limiterRun n chunks).2 = false ↔ n + chunkTotal chunks ≤ MAX_CRX_SIZE)
    ∧ ((limiterRun n chunks).2 = false → (limiterRun n chunks).1 = chunks)
    ∧ ((limiterRun n chunks).2 = true →
        ∃ next rest, chunks = (limiterRun n chunks).1 ++ next :: rest
          ∧ MAX_CRX_SIZE < n + chunkTotal (limiterRun n chunks).1 + next.length) := by
  induction chunks with
  | nil =>
    intro n hn
    simp [limiterRun, chunkTotal, hn]
  | cons c rest ih =>
    intro n hn
    by_cases hov : MAX_CRX_SIZE < n + c.length
    · have hres : limiterRun n (c :: rest) = ([], true) := by
        simp [limiterRun, hov]
      refine ⟨⟨c :: rest, by rw [hres]; simp⟩, by simpa [hres, chunkTotal] using hn, ?_, ?_, ?_⟩
      · rw [hres]
        simp only [chunkTotal, List.map_cons, List.sum_cons]
        constructor
        · intro h
          exact absurd h (by simp)
        · intro h
          omega
      · intro h
        rw [hres] at h
        exact absurd h (by simp)
      · intro _
        exact ⟨c, rest, by rw [hres]; simp, by rw [hres]; simpa [chunkTotal] using hov⟩
    · have hres : limiterRun n (c :: rest) =
          (c :: (limiterRun (n + c.length) rest).1, (limiterRun (n + c.length) rest).2) := by
        simp [limiterRun, hov]
      obtain ⟨⟨r1, hr1⟩, h2, h3, h4, h5⟩ := ih (n + c.length) (by omega)
      have hct : ∀ l : List (List Nat), chunkTotal (c :: l) = c.length + chunkTotal l := by
        intro l
        simp [chunkTotal]
      refine ⟨⟨r1, by rw [hres]; simpa using hr1⟩, ?_, ?_, ?_, ?_⟩
      · rw [hres]
        simp only [hct]
        omega
      · rw [hres]
        simp only [hct]
        rw [h3]
        omega
      · intro hf
        rw [hres] at hf ⊢
        simp only at hf
        rw [h4 hf]
      · intro ht
        rw [hres] at ht ⊢
        simp only at ht
        obtain ⟨next, rest2, heq, hb⟩ := h5 ht
        refine ⟨next, rest2, ?_, ?_⟩
        · show c :: rest = (c :: (limiterRun (n + c.length) rest).1) ++ next :: rest2
          rw [List.cons_append, ← heq]
        · simp only [hct]
          omega

/-- C5: the limiter delivers a leading portion of the upstream chunks,
unchanged and in order; the bytes delivered never exceed `MAX_CRX_SIZE`; the
stream completes without error exactly when the whole input fits the
ceiling, and in that case everything is delivered; and when it errors, the
first undelivered chunk is precisely the one that would push the running
total past the ceiling. -/
theorem c5_limiter (chunks : List (List Nat)) :
    (∃ rest, chunks = (limiterRun 0 chunks).1 ++ rest)
    ∧ chunkTotal (limiterRun 0 chunks).1 ≤ MAX_CRX_SIZE
    ∧ ((limiterRun 0 chunks).2 = false ↔ chunkTotal chunks ≤ MAX_CRX_SIZE)
    ∧ ((limiterRun 0 chunks).2 = false → (limiterRun 0 chunks).1 = chunks)
    ∧ ((limiterRun 0 chunks).2 = true →
        ∃ next rest, chunks = (limiterRun 0 chunks).1 ++ next :: rest
          ∧ MAX_CRX_SIZE < chunkTotal (limiterRun 0 chunks).1 + next.length) := by
  have h := limiterRun_spec chunks 0 (by omega)
  simpa using h

/-- Witness for `c5_limiter`: a small stream passes through whole and
unerrored. -/
theorem c5_limiter_witness :
    (limiterRun 0 [[1, 2], [3]]).1 = [[1, 2], [3]] :=
  (c5_limiter [[1, 2], [3]]).2.2.2.1 rfl

lemma isSafeChar_ne_hyphen (c : Char) (h : isSafeChar c = true) : c ≠ '-' := by
  rintro rfl
  exact absurd h (by decide)

lemma collapse_true_head (l : List Char) :
    (collapseAux true l).head? ≠ some '-' := by
  induction l with
  | nil => simp [collapseAux]
  | cons c rest ih =>
    by_cases hs : isSafeChar c
    · simp only [collapseAux, hs, if_true, List.head?_cons, ne_eq, Option.some.injEq]
      exact isSafeChar_ne_hyphen c hs
    · simpa [collapseAux, hs] using ih

lemma collapse_chain (l : List Char) : ∀ b, List.Chain' okPair (collapseAux b l) := by
  induction l with
  | nil => intro b; simp [collapseAux]
  | cons c rest ih =>
    intro b
    by_cases hs : isSafeChar c
    · simp only [collapseAux, hs, if_true]
      refine List.chain'_cons'.mpr ⟨?_, ih false⟩
      intro y _
      exact fun hp => isSafeChar_ne_hyphen c hs hp.1
    · cases b
      · simp only [collapseAux, hs, if_false, Bool.false_eq_true]
        refine List.chain'_cons'.mpr ⟨?_, ih true⟩
        intro y hy
        intro hp
        exact collapse_true_head rest (by rw [hy, hp.2])
      · simpa [collapseAux, hs] using ih true

lemma chain_dropOneLead_eq (l : List Char) (h : List.Chain' okPair l) :
    dropOneLead l = l.dropWhile (fun c => c == '-') := by
  cases l with
  | nil => rfl
  | cons c rest =>
    by_cases hc : c = '-'
    · subst hc
      have hhead : ∀ y ∈ rest.head?, okPair '-' y := (List.chain'_cons'.mp h).1
      simp only [dropOneLead, List.head?_cons, if_pos rfl, List.tail_cons,
        List.dropWhile_cons, beq_self_eq_true, if_true]
      cases rest with
      | nil => rfl
      | cons d r2 =>
        have hd : d ≠ '-' := by
          intro he
          exact hhead d rfl ⟨rfl, he⟩
        simp [List.dropWhile_cons, hd]
    · have hne : ¬ ((c :: rest).head? = some '-') := by
        simp [hc]
      have hbe : (c == '-') = false := by
        simp [hc]
      simp only [dropOneLead, hne, if_false, List.dropWhile_cons, hbe, Bool.false_eq_true]

lemma dropLastHyphen_reverse (m : List Char) :
    dropLastHyphen m.reverse = (dropOneLead m).reverse := by
  cases m with
  | nil => rfl
  | cons c t =>
    by_cases hc : c = '-'
    · subst hc
      simp [dropLastHyphen, dropOneLead, List.reverse_cons, List.getLast?_concat,
        List.dropLast_concat]
    · simp [dropLastHyphen, dropOneLead, List.reverse_cons, List.getLast?_concat, hc]

lemma okPair_flip {a b : Char} (h : okPair a b) : okPair b a :=
  fun hp => h ⟨hp.2, hp.1⟩

lemma chain_dropLastHyphen_eq (l : List Char) (h : List.Chain' okPair l) :
    dropLastHyphen l = dropTrailingAll l := by
  have hrev : List.Chain' okPair l.reverse := by
    rw [List.chain'_reverse]
    exact h.imp (fun _ _ hab => okPair_flip hab)
  calc dropLastHyphen l = dropLastHyphen l.reverse.reverse := by rw [List.reverse_reverse]
    _ = (dropOneLead l.reverse).reverse := dropLastHyphen_reverse l.reverse
    _ = (l.reverse.dropWhile (fun c => c == '-')).reverse := by
        rw [chain_dropOneLead_eq l.reverse hrev]
    _ = dropTrailingAll l := rfl

lemma chain_dropOneLead (l : List Char) (h : List.Chain' okPair l) :
    List.Chain' okPair (dropOneLead l) := by
  unfold dropOneLead
  split
  · exact h.tail
  · exact h

lemma sanitizeName_eq_spec (l : List Char) : sanitizeName l = sanitizeSpec l := by
  have hch : List.Chain' okPair (collapseAux false (l.map jsToLower)) :=
    collapse_chain (l.map jsToLower) false
  unfold sanitizeName sanitizeSpec
  rw [chain_dropLastHyphen_eq _ (chain_dropOneLead _ hch),
    chain_dropOneLead_eq _ hch]

/-- C8: for every display-name hint, the source's sanitizer equals the
spec's description (lowercase, collapse every run of non-alphanumerics to a
single hyphen, trim leading/trailing hyphens), the disposition filename is
`sanitized-id.zip` when the sanitized name is nonempty and `id.zip` when the
hint sanitizes to nothing (also when no hint is given), and the hint
`"My Cool!! Extension--Name"` sanitizes to `"my-cool-extension-name"`. -/
theorem c8_filename (s id : String) :
    sanitizeName s.data = sanitizeSpec s.data
    ∧ buildFilename (some s) id =
        (if sanitizeSpec s.data = [] then id ++ ".zip"
         else String.mk (sanitizeSpec s.data) ++ "-" ++ id ++ ".zip")
    ∧ buildFilename none id = id ++ ".zip"
    ∧ sanitizeName "My Cool!! Extension--Name".data = "my-cool-extension-name".data := by
  refine ⟨sanitizeName_eq_spec s.data, ?_, ?_, by decide⟩
  · unfold buildFilename
    simp only [Option.getD_some]
    have hsafe : safeName s = String.mk (sanitizeSpec s.data) := by
      unfold safeName
      rw [sanitizeName_eq_spec]
    by_cases h0 : sanitizeSpec s.data = []
    · rw [if_pos h0]
      have he : safeName s = "" := by rw [hsafe, h0]
      rw [if_pos he]
    · rw [if_neg h0]
      have he : safeName s ≠ "" := by
        rw [hsafe]
        intro he
        apply h0
        have hd := congrArg String.data he
        simpa using hd
      rw [if_neg he, hsafe]
  · unfold buildFilename
    have h : safeName "" = "" := rfl
    simp [h]
